import Mathlib

/-!
Verification of the query-document batch compaction and the nested-update
graph building of the prisma-engines query core.

The definitions below are a shallow embedding of
`query-engine/core/src/query_document/mod.rs` (batch compaction) and
`query-engine/core/src/query_graph_builder/write/nested/update_nested.rs`
(nested update / nested update-many).  Types and functions that those two
files consume from elsewhere in the repository (the selection model, the
schema catalog, the graph-builder utilities) are modelled from the
specification; every such definition carries a doc comment starting with
"Modelled from the spec".  Rust panics (`unwrap` / `expect` / indexing)
are embedded as `Option` / `Except` failures.
-/

/-- Embedding of `prisma_models::PrismaValue` as used by the query document:
a tagged union over null, scalar leaves, lists and objects
(the spec: "Value: a tagged union over Null, Scalar, List, Object"). -/
inductive PrismaValue where
  | null
  | string (s : String)
  | int (n : Int)
  | boolean (b : Bool)
  | list (l : List PrismaValue)
  | object (o : List (String × PrismaValue))

mutual

/-- Structural equality test on values (equality of the Rust `PrismaValue`). -/
def pvBeq : PrismaValue → PrismaValue → Bool
  | .null, .null => true
  | .string a, .string b => a == b
  | .int a, .int b => a == b
  | .boolean a, .boolean b => a == b
  | .list a, .list b => pvListBeq a b
  | .object a, .object b => pvObjBeq a b
  | _, _ => false

/-- Pointwise equality test on value lists. -/
def pvListBeq : List PrismaValue → List PrismaValue → Bool
  | [], [] => true
  | a :: as, b :: bs => pvBeq a b && pvListBeq as bs
  | _, _ => false

/-- Pointwise equality test on (name, value) pair lists. -/
def pvObjBeq : List (String × PrismaValue) → List (String × PrismaValue) → Bool
  | [], [] => true
  | (k, a) :: as, (l, b) :: bs => k == l && pvBeq a b && pvObjBeq as bs
  | _, _ => false

end

/-- Embedding of `query_document::Selection`: a requested field with an
optional alias, an ordered argument list and a nested selection set. -/
inductive Selection where
  | sel (name : String) (aliasName : Option String)
      (arguments : List (String × PrismaValue))
      (nested : List Selection)

/-- Name of a selection. -/
def Selection.name : Selection → String
  | .sel n _ _ _ => n

/-- Alias of a selection. -/
def Selection.aliasName : Selection → Option String
  | .sel _ a _ _ => a

/-- Argument list of a selection. -/
def Selection.arguments : Selection → List (String × PrismaValue)
  | .sel _ _ args _ => args

/-- Nested selection set of a selection. -/
def Selection.nested_selections : Selection → List Selection
  | .sel _ _ _ ns => ns

/-- First argument of a selection when it is an object
(`selection.arguments()[0].1.clone().into_object()` in the source;
the indexing and `into_object` failures are embedded as `none`). -/
def Selection.firstArgObject (s : Selection) : Option (List (String × PrismaValue)) :=
  match s.arguments.head? with
  | some (_, PrismaValue.object o) => some o
  | _ => none

/-- Last argument of a selection when it is an object
(`sel.pop_argument().unwrap().1.into_object().unwrap()` in the source;
`pop` removes the last element of a vector). -/
def Selection.lastArgObject (s : Selection) : Option (List (String × PrismaValue)) :=
  match s.arguments.getLast? with
  | some (_, PrismaValue.object o) => some o
  | _ => none

/-- Embedding of `query_document::Operation`: a read or a write around a
selection. -/
inductive Operation where
  | read (s : Selection)
  | write (s : Selection)

/-- Underlying selection of an operation. -/
def Operation.sel : Operation → Selection
  | .read s => s
  | .write s => s

/-- Name of an operation (the name of its selection). -/
def Operation.name (op : Operation) : String :=
  op.sel.name

/-- Nested selections of an operation. -/
def Operation.nested_selections (op : Operation) : List Selection :=
  op.sel.nested_selections

/-- Embedding of `Operation::into_read`: the selection of a read operation,
failing on writes. -/
def Operation.into_read : Operation → Option Selection
  | .read s => some s
  | .write _ => none

/-- Filter object of a find-unique shaped operation: the first argument of a
read, which must be an object. -/
def Operation.where_object : Operation → Option (List (String × PrismaValue))
  | .read s => s.firstArgObject
  | .write _ => none

/-- Modelled from the spec: the schema/model catalog view a model exposes to
compaction — which names are the model's scalar fields, and which names are
recognized multi-column ("compound") unique keys together with their
component fields. -/
structure Model where
  scalarFields : List String
  compoundUniques : List (String × List String)

/-- Modelled from the spec: "whether a named filter key is itself a model's
scalar field" (`model.fields().find_from_scalar(&key)` succeeding). -/
def Model.find_from_scalar (m : Model) (key : String) : Bool :=
  m.scalarFields.contains key

/-- Modelled from the spec: resolution of a filter key to a recognized
compound unique key of the model (`resolve_compound_field`). -/
def resolve_compound_field (key : String) (m : Model) : Option (List String) :=
  m.compoundUniques.lookup key

/-- Modelled from the spec: the part of the query schema consulted by
compaction — "model lookup by query-field name", restricted to the
find-unique query fields (the only ones compaction ever looks up). -/
structure QuerySchema where
  findUniqueFields : List (String × Model)

/-- Modelled from the spec: model lookup by query-field name
(`schema.find_query_field(op.name()).unwrap().model().unwrap()`). -/
def QuerySchema.find_query_model (schema : QuerySchema) (name : String) : Option Model :=
  schema.findUniqueFields.lookup name

/-- Modelled from the spec: `Operation::is_find_unique` — the operation is a
"single-record read (find-unique shaped: exactly one filter argument, an
object)" whose name the schema knows as a find-unique query field. -/
def Operation.is_find_unique (schema : QuerySchema) (op : Operation) : Bool :=
  match op with
  | .read s =>
    (schema.find_query_model s.name).isSome &&
    (match s.arguments with
     | [(_, PrismaValue.object _)] => true
     | _ => false)
  | .write _ => false

/-- Embedding of `BatchDocumentTransaction`: an optional isolation-level
string, passed through unchanged to the storage layer. -/
structure BatchDocumentTransaction where
  isolation_level : Option String

/-- Embedding of `CompactedDocument` (field for field with the source
struct: `arguments`, `nested_selection`, `operation`, `keys`, `name`; the
struct carries no transaction descriptor).  The per-request argument maps
are embedded as association lists. -/
structure CompactedDocument where
  arguments : List (List (String × PrismaValue))
  nested_selection : List String
  operation : Operation
  keys : List String
  name : String

/-- Embedding of `CompactedDocument::single_name`. -/
def CompactedDocument.single_name (c : CompactedDocument) : String :=
  "findUnique" ++ c.name

/-- Embedding of `CompactedDocument::plural_name`. -/
def CompactedDocument.plural_name (c : CompactedDocument) : String :=
  "findMany" ++ c.name

/-- Embedding of `BatchDocument`: either a plain batch of operations with an
optional transaction descriptor, or a compacted document. -/
inductive BatchDocument where
  | Multi (operations : List Operation) (transaction : Option BatchDocumentTransaction)
  | Compact (c : CompactedDocument)

/-- Embedding of the per-entry closure of
`BatchDocument::invalid_compact_filter`.  Faithful to the source: a
compound key used with an object value is fine; otherwise the key must be
a scalar field, used either with a bare value or with an object that
contains an `equals` comparison. -/
def invalidFilterEntry (model : Model) (kv : String × PrismaValue) : Bool :=
  match kv.2 with
  | PrismaValue.object obj =>
    if (resolve_compound_field kv.1 model).isSome then false
    else if model.find_from_scalar kv.1 then
      !(obj.any fun e => e.1 == "equals")
    else true
  | _ =>
    if model.find_from_scalar kv.1 then false else true

/-- Embedding of `BatchDocument::invalid_compact_filter` (continued): true
when the operation contains a filter entry that prevents compacting. -/
def BatchDocument.invalid_compact_filter (schema : QuerySchema) (op : Operation) : Bool :=
  if !(op.is_find_unique schema) then true
  else
    match op.where_object, schema.find_query_model op.name with
    | some where_obj, some model => where_obj.any (invalidFilterEntry model)
    | _, _ => true

/-- Modelled from the spec: order-independent equality of two lists of
nested-selection names. -/
def nameSetEq (a b : List String) : Bool :=
  a.length == b.length && a.all (fun n => b.contains n)

/-- Modelled from the spec: "A Selection is structurally comparable by
(name, arguments, nested-selection names) for compaction matching" — the
equality used by `contains` on nested-selection lists in `can_compact`. -/
def Selection.specEq (a b : Selection) : Bool :=
  a.name == b.name &&
  pvObjBeq a.arguments b.arguments &&
  nameSetEq (a.nested_selections.map Selection.name) (b.nested_selections.map Selection.name)

/-- Membership of a selection in a list of selections under the structural
comparability (`op.nested_selections().contains(fop)` in the source). -/
def selectionListContains (l : List Selection) (s : Selection) : Bool :=
  l.any fun t => t.specEq s

/-- Embedding of `BatchDocument::can_compact`: a batch can be compacted when
it is non-empty, its first operation is find-unique, no operation has an
invalid compact filter, and every further operation is find-unique with the
same name, the same number of nested selections, and nested selections
containing each nested selection of the first. -/
def BatchDocument.can_compact (schema : QuerySchema) : BatchDocument → Bool
  | .Multi operations _ =>
    match operations with
    | [] => false
    | first :: rest =>
      if first.is_find_unique schema then
        if operations.any (fun op => BatchDocument.invalid_compact_filter schema op) then
          false
        else
          rest.all fun op =>
            op.is_find_unique schema &&
            first.name == op.name &&
            first.nested_selections.length == op.nested_selections.length &&
            first.nested_selections.all (fun fop => selectionListContains op.nested_selections fop)
      else false
  | .Compact _ => false

/-- Embedding of `extract_filter` (the compaction one): flattens a unique
filter into (field, value) pairs.  A compound key used with an object value
contributes the object entries; a scalar filter object contributes the value
of its `equals` entry (the `expect` on a missing `equals` is embedded as
`none`); a bare value contributes itself. -/
def extract_filter (where_obj : List (String × PrismaValue)) (model : Model) :
    Option (List (String × PrismaValue)) :=
  match where_obj with
  | [] => some []
  | kv :: rest => do
    let here ←
      match kv.2 with
      | PrismaValue.object obj =>
        if (resolve_compound_field kv.1 model).isSome then some obj
        else
          match obj.find? (fun e => e.1 == "equals") with
          | some e => some [(kv.1, e.2)]
          | none => none
      | x => some [(kv.1, x)]
    let there ← extract_filter rest model
    pure (here ++ there)

/-- Modelled from the spec: the selection set of the compacted filter —
"the compacted filter is: this field is one of {its extracted values across
the batch}".  Embedded as an association list from field name to the list of
extracted values, fields in first-appearance order. -/
abbrev SelectionSet := List (String × List PrismaValue)

/-- Modelled from the spec: pushing one extracted (field, value) pair into
the selection set appends the value to the membership list of its field,
adding the field at the end when it is new. -/
def SelectionSet.push (acc : SelectionSet) (field : String) (v : PrismaValue) : SelectionSet :=
  match acc with
  | [] => [(field, [v])]
  | (f, vs) :: rest =>
    if f = field then (f, vs ++ [v]) :: rest
    else (f, vs) :: SelectionSet.push rest field v

/-- Field names of a selection set, in order (`selection_set.keys()`). -/
def SelectionSet.keys (s : SelectionSet) : List String :=
  s.map Prod.fst

/-- Membership list of one field of a selection set (empty when the field
does not appear). -/
def SelectionSet.valuesOf (s : SelectionSet) (field : String) : List PrismaValue :=
  match s with
  | [] => []
  | (f, vs) :: rest => if f = field then vs else SelectionSet.valuesOf rest field

/-- Modelled from the spec: the value form of the IN-style membership filter
(`In::new(selection_set)` pushed as the `where` argument): each field is
mapped to the list of values it may take. -/
def inValue (s : SelectionSet) : PrismaValue :=
  PrismaValue.object (s.map fun fv => (fv.1, PrismaValue.list fv.2))

/-- Replacement of the first occurrence of a pattern in a string
(`replacen(pat, rep, 1)` in the source). -/
def replaceFirst (s pat rep : String) : String :=
  match s.splitOn pat with
  | [] => s
  | [x] => x
  | x :: rest => x ++ rep ++ String.intercalate pat rest

/-- Option-valued map over a list, failing when any element fails (the
embedding of a Rust loop whose body can panic). -/
def mapOption (f : α → Option β) : List α → Option (List β)
  | [] => some []
  | x :: xs => do
    let y ← f x
    let ys ← mapOption f xs
    pure (y :: ys)

/-- Option-valued left fold over a list (the embedding of a Rust `fold`
whose body can panic). -/
def foldlOption (f : β → α → Option β) : β → List α → Option β
  | acc, [] => some acc
  | acc, x :: xs => do
    let acc2 ← f acc x
    foldlOption f acc2 xs

/-- Loop body of the compacted selection-set fold in
`CompactedDocument::from_operations`: take the (object) filter argument of
one selection, flatten it with `extract_filter`, and push every extracted
pair into the accumulated selection set. -/
def selectionSetStep (model : Model) (acc : SelectionSet) (s : Selection) : Option SelectionSet := do
  let where_obj ← s.firstArgObject
  let filters ← extract_filter where_obj model
  pure (filters.foldl (fun a fv => SelectionSet.push a fv.1 fv.2) acc)

/-- Loop body of the per-request argument-map extraction in
`CompactedDocument::from_operations`: pop the (last) argument of one
selection and flatten it with `extract_filter` (the Rust code collects the
result into a `HashMap`; we keep the association list). -/
def remapStep (model : Model) (s : Selection) : Option (List (String × PrismaValue)) := do
  let where_obj ← s.lastArgObject
  extract_filter where_obj model

/-- Argument keys of the first request used for later mapping
(`arguments[0]` flat-mapped: object values contribute their keys, other
values their field name). -/
def argumentKeys (a0 : List (String × PrismaValue)) : List String :=
  (a0.map fun pair =>
    match pair.2 with
    | PrismaValue.object obj => obj.map Prod.fst
    | _ => [pair.1]).flatten

/-- Embedding of `CompactedDocument::from_operations`: builds the compacted
find-many read from the separate find-unique operations.  All the `unwrap`
and `expect` calls of the source are embedded as `Option` failures. -/
def CompactedDocument.from_operations (ops : List Operation) (schema : QuerySchema) :
    Option CompactedDocument :=
  match ops.head? with
  | none => none
  | some first =>
    match schema.find_query_model first.name with
    | none => none
    | some model =>
      match mapOption Operation.into_read ops with
      | none => none
      | some selections =>
        match selections.head? with
        | none => none
        | some s0 =>
          match foldlOption (selectionSetStep model) [] selections with
          | none => none
          | some selection_set =>
            match mapOption (remapStep model) selections with
            | none => none
            | some argumentsList =>
              match argumentsList.head? with
              | none => none
              | some a0 =>
                let injected := (SelectionSet.keys selection_set).foldl
                  (fun ns key =>
                    if ns.any (fun t => t.name == key) then ns
                    else ns ++ [Selection.sel key none [] []])
                  s0.nested_selections
                let builder := Selection.sel
                  (replaceFirst s0.name "findUnique" "findMany")
                  s0.aliasName
                  [("where", inValue selection_set)]
                  injected
                some
                  { arguments := argumentsList
                    nested_selection := s0.nested_selections.map Selection.name
                    operation := Operation.read builder
                    keys := argumentKeys a0
                    name := replaceFirst s0.name "findUnique" "" }

/-- Embedding of `BatchDocument::compact`: rewrite a `Multi` batch into a
`Compact` document when `can_compact` holds (dropping the transaction
descriptor), otherwise return the input unchanged.  The panic inside
`from_operations` (provably unreachable under `can_compact`) is embedded
as returning the input. -/
def BatchDocument.compact (schema : QuerySchema) (d : BatchDocument) : BatchDocument :=
  match d with
  | .Multi operations txn =>
    if BatchDocument.can_compact schema (.Multi operations txn) then
      match CompactedDocument.from_operations operations schema with
      | some c => .Compact c
      | none => .Multi operations txn
    else .Multi operations txn
  | .Compact c => .Compact c

/-- Embedding of `BatchDocument::is_compact`. -/
def BatchDocument.is_compact : BatchDocument → Bool
  | .Multi _ _ => false
  | .Compact _ => true

/-- Isolation level reaching the storage layer for a batch document: a
`Multi` batch passes its transaction descriptor through; the
`CompactedDocument` struct has no transaction field, so a `Compact`
document carries none. -/
def batchIsolationLevel : BatchDocument → Option String
  | .Multi _ (some t) => t.isolation_level
  | .Multi _ none => none
  | .Compact _ => none

/-- Embedding of `ParsedInputValue` as used by the nested-update builder:
a map, a list, or a single value. -/
inductive ParsedInputValue where
  | map (m : List (String × ParsedInputValue))
  | list (l : List ParsedInputValue)
  | single (v : PrismaValue)

/-- Conversion of a parsed input value into a map (`try_into` on
`ParsedInputMap`), failing otherwise. -/
def ParsedInputValue.asMap : ParsedInputValue → Option (List (String × ParsedInputValue))
  | .map m => some m
  | _ => none

/-- Removal of a key from a parsed input map (`map.remove(key)` in the
source): the removed value and the remaining map, or `none` when the key is
absent. -/
def mapRemove (m : List (String × ParsedInputValue)) (key : String) :
    Option (ParsedInputValue × List (String × ParsedInputValue)) :=
  match m with
  | [] => none
  | kv :: rest =>
    if kv.1 == key then some (kv.2, rest)
    else
      match mapRemove rest key with
      | some (v, rest2) => some (v, kv :: rest2)
      | none => none

/-- Modelled from the spec: a write-side model as the nested-update builder
sees it — "the related model's primary identifier" plus its name. -/
structure WriteModel where
  name : String
  primaryIdentifier : List String

/-- Modelled from the spec: the relation metadata consumed by the builder —
"relation metadata (direction, related model, ...)". -/
structure RelationField where
  is_list : Bool
  relationName : String
  relatedModel : WriteModel

namespace Connector

/-- Modelled from the spec: a connector filter produced by the graph-builder
filter extractors; only emptiness and the originating conditions matter to
the builder, so the embedding keeps the conditions. -/
inductive Filter where
  | empty
  | test (conditions : List (String × ParsedInputValue))

end Connector

/-- Modelled from the spec: a record filter — the target description of an
update-many node, either condition-based or an explicit list of matched
identifiers ("the closure installs all matched identifiers as the
update-many node's record filter"). -/
structure RecordFilter where
  filter : Connector.Filter
  selectors : Option (List (List (String × PrismaValue)))

/-- Identifier row projected from a parent result (a `SelectionResult`). -/
abbrev SelectionResult := List (String × PrismaValue)

/-- Modelled from the spec: conversion of a list of matched identifiers into
a record filter (`child_ids.into()`). -/
def RecordFilter.fromSelectors (ids : List SelectionResult) : RecordFilter :=
  { filter := Connector.Filter.empty, selectors := some ids }

/-- Modelled from the spec: conversion of a plain filter into a record
filter (`filter.into()` inside the update-many node constructor). -/
def RecordFilter.fromFilter (f : Connector.Filter) : RecordFilter :=
  { filter := f, selectors := none }

/-- Embedding of the `UpdateRecord` write query as the nested-update builder
manipulates it: the child model, the supplied data, the filter the node was
built with, and the selector list installed by edge closures. -/
structure UpdateRecordQuery where
  model : WriteModel
  data : List (String × ParsedInputValue)
  record_filter : Connector.Filter
  selectors : List SelectionResult

/-- Embedding of `set_selectors` on an update query. -/
def UpdateRecordQuery.set_selectors (q : UpdateRecordQuery) (ids : List SelectionResult) :
    UpdateRecordQuery :=
  { q with selectors := ids }

/-- Embedding of the `UpdateManyRecords` write query: the child model, the
supplied data and the record filter. -/
structure UpdateManyRecordsQuery where
  model : WriteModel
  data : List (String × ParsedInputValue)
  record_filter : RecordFilter

/-- Write queries appearing in the nested-update subgraphs. -/
inductive WriteQuery where
  | updateRecord (q : UpdateRecordQuery)
  | updateManyRecords (q : UpdateManyRecordsQuery)

/-- Read queries appearing in the nested-update subgraphs: the
find-children-by-parent check node (modelled from the spec: "a read, scoped
to the parent's identifier plus the supplied filter, returning the related
model's primary identifier"). -/
inductive ReadQuery where
  | relatedRecords (parent : Nat) (relationName : String) (filter : Connector.Filter)

/-- A primitive query: read or write. -/
inductive Query where
  | read (r : ReadQuery)
  | write (w : WriteQuery)

/-- A graph node: a primitive query, or an emulation node inserted for
referential-action emulation. -/
inductive Node where
  | query (q : Query)
  | emulation (relationName : String)

/-- Reference to a node in the graph arena (spec design note: "an arena of
nodes indexed by stable integer identifiers"). -/
abbrev NodeRef := Nat

/-- Errors raised while building a query graph.  `RecordNotFound` is the
user-facing condition of the source; `InternalConversion` embeds the
`try_into` / `unwrap` failures. -/
inductive QueryGraphBuilderError where
  | RecordNotFound (message : String)
  | InternalConversion (message : String)

/-- Closed vocabulary of edge transformation closures (spec design note:
"model as a small closed vocabulary of dependency-transformation
variants"), carrying exactly the data the source closures capture. -/
inductive DependencyTransformation where
  | nestedUpdateClosure (childModelName : String) (relationName : String)
  | nestedUpdateManyClosure

/-- Embedding of the edge closures of `update_nested.rs`.

For `nestedUpdateClosure` (the closure created by `nested_update`): pop the
last projected child identifier; with none, fail with `RecordNotFound`
naming the child model and the relation; otherwise install the popped
identifier as the single selector of an `UpdateRecord` node (other nodes
pass through unchanged).

For `nestedUpdateManyClosure` (the closure created by
`nested_update_many`): install all projected child identifiers as the
record filter of an `UpdateManyRecords` node (other nodes pass through
unchanged); no identifier count is an error. -/
def DependencyTransformation.apply :
    DependencyTransformation → Node → List SelectionResult →
    Except QueryGraphBuilderError Node
  | .nestedUpdateClosure childModelName relationName, update_node, child_ids =>
    match child_ids.getLast? with
    | none =>
      .error (.RecordNotFound
        ("No \x27" ++ childModelName ++
         "\x27 record was found for a nested update on relation \x27" ++
         relationName ++ "\x27."))
    | some child_id =>
      match update_node with
      | .query (.write (.updateRecord ur)) =>
        .ok (.query (.write (.updateRecord (ur.set_selectors [child_id]))))
      | other => .ok other
  | .nestedUpdateManyClosure, update_many_node, child_ids =>
    match update_many_node with
    | .query (.write (.updateManyRecords ur)) =>
      .ok (.query (.write (.updateManyRecords
        { ur with record_filter := RecordFilter.fromSelectors child_ids })))
    | other => .ok other

/-- A projected-data dependency: the projected identifier fields and the
transformation run between the parent and the child node. -/
structure Edge where
  source : NodeRef
  target : NodeRef
  identifier : List String
  transformation : DependencyTransformation

/-- The query graph being built: an arena of nodes and a list of edges. -/
structure QueryGraph where
  nodes : List Node
  edges : List Edge

/-- Appends a node to the graph arena, returning its reference. -/
def QueryGraph.create_node (g : QueryGraph) (n : Node) : QueryGraph × NodeRef :=
  ({ g with nodes := g.nodes ++ [n] }, g.nodes.length)

/-- Appends an edge to the graph. -/
def QueryGraph.create_edge (g : QueryGraph) (source target : NodeRef)
    (identifier : List String) (t : DependencyTransformation) : QueryGraph :=
  { g with edges := g.edges ++ [{ source, target, identifier, transformation := t }] }

/-- Modelled from the spec: the connector context as consulted here — which
relations pointing at the child model require application-level
referential-action emulation. -/
structure ConnectorContext where
  emulatedRelations : List String

/-- Modelled from the spec: `utils::coerce_vec` — a nested-write value is
"possibly a list, for to-many relations"; a non-list value is a singleton. -/
def coerce_vec : ParsedInputValue → List ParsedInputValue
  | .list l => l
  | x => [x]

/-- Modelled from the spec: the envelope test for a to-one nested update —
"an envelope distinguishing an optional filter from data", recognized by the
presence of the `data` key. -/
def isNestedToOneUpdateEnvelope (m : List (String × ParsedInputValue)) : Bool :=
  m.any fun kv => kv.1 == "data"

namespace Extractors

/-- Modelled from the spec: `extract_unique_filter` of the graph builder —
builds "a filter selecting which related record to update" from the `where`
map of a to-many nested update. -/
def extract_unique_filter (whereMap : List (String × ParsedInputValue))
    (_child_model : WriteModel) : Connector.Filter :=
  Connector.Filter.test whereMap

/-- Modelled from the spec: `extract_filter` of the graph builder — builds
the filter of a nested update-many (or of a to-one nested update envelope)
from its `where` map. -/
def extract_filter (whereMap : List (String × ParsedInputValue))
    (_child_model : WriteModel) : Connector.Filter :=
  Connector.Filter.test whereMap

end Extractors

/-- Modelled from the spec: `utils::insert_find_children_by_parent_node` —
appends the "find children by parent" read node, "a read, scoped to the
parent's identifier plus the supplied filter, returning the related model's
primary identifier". -/
def insert_find_children_by_parent_node (g : QueryGraph) (parent : NodeRef)
    (prf : RelationField) (filter : Connector.Filter) : QueryGraph × NodeRef :=
  g.create_node (.query (.read (.relatedRecords parent prf.relationName filter)))

/-- Modelled from the spec: `update::update_record_node` — appends the
update node for the child model with the supplied data.  The filter passed
by the caller becomes the record filter the node is built with (its
update-many counterpart below is explicitly handed `Connector.Filter::empty()` by
`nested_update_many`); the selector list starts empty and is only filled in
later by an edge closure. -/
def update_record_node (g : QueryGraph) (_ctx : ConnectorContext) (filter : Connector.Filter)
    (child_model : WriteModel) (data : List (String × ParsedInputValue)) :
    QueryGraph × NodeRef :=
  g.create_node (.query (.write (.updateRecord
    { model := child_model, data, record_filter := filter, selectors := [] })))

/-- Modelled from the spec: `update::update_many_record_node` — appends the
update-many node for the child model "with the data payload and an initially
empty record filter" (the caller passes `Connector.Filter::empty()`). -/
def update_many_record_node (g : QueryGraph) (_ctx : ConnectorContext) (filter : Connector.Filter)
    (child_model : WriteModel) (data : List (String × ParsedInputValue)) :
    QueryGraph × NodeRef :=
  g.create_node (.query (.write (.updateManyRecords
    { model := child_model, data, record_filter := RecordFilter.fromFilter filter })))

/-- Modelled from the spec: `utils::insert_emulated_on_update` — appends the
referential-action emulation subtree, one node per relation requiring
emulation. -/
def insert_emulated_on_update (g : QueryGraph) (ctx : ConnectorContext)
    (_child_model : WriteModel) (_find : NodeRef) (_update : NodeRef) : QueryGraph :=
  ctx.emulatedRelations.foldl (fun acc r => (acc.create_node (.emulation r)).1) g

/-- Embedding of the `(data, filter)` derivation at the head of the
`nested_update` loop body: for a to-many relation, the mandatory `where`
map is extracted into the filter and `data` supplies the payload; for a
to-one relation, an envelope map yields the optional `where` filter (empty
when absent) and its `data` payload, and any other value is the shorthand
bare payload with an empty filter. -/
def nestedUpdateDataFilter (parent_relation_field : RelationField)
    (child_model : WriteModel) (value : ParsedInputValue) :
    Except QueryGraphBuilderError (ParsedInputValue × Connector.Filter) :=
  if parent_relation_field.is_list then
    match value.asMap with
    | none => .error (.InternalConversion "nested update item is not a map")
    | some m =>
      match mapRemove m "where" with
      | none => .error (.InternalConversion "missing where argument")
      | some (whereVal, m1) =>
        match whereVal.asMap with
        | none => .error (.InternalConversion "where argument is not a map")
        | some whereMap =>
          match mapRemove m1 "data" with
          | none => .error (.InternalConversion "missing data argument")
          | some (dataVal, _) =>
            .ok (dataVal, Extractors.extract_unique_filter whereMap child_model)
  else
    match value with
    | .map m =>
      if isNestedToOneUpdateEnvelope m then
        match mapRemove m "where" with
        | some (whereVal, m1) =>
          match whereVal.asMap with
          | none => .error (.InternalConversion "where argument is not a map")
          | some whereMap =>
            match mapRemove m1 "data" with
            | none => .error (.InternalConversion "missing data argument")
            | some (dataVal, _) =>
              .ok (dataVal, Extractors.extract_filter whereMap child_model)
        | none =>
          match mapRemove m "data" with
          | none => .error (.InternalConversion "missing data argument")
          | some (dataVal, _) => .ok (dataVal, Connector.Filter.empty)
      else .ok (ParsedInputValue.map m, Connector.Filter.empty)
    | x => .ok (x, Connector.Filter.empty)

/-- Embedding of the body of the `nested_update` loop for one input item:
derive the `(data, filter)` pair from the item, insert the find-children
node, the update node (built with the derived filter), the projected-data
edge carrying the nested-update closure, and the on-update emulation
subtree. -/
def nested_update_item (graph : QueryGraph) (ctx : ConnectorContext) (parent : NodeRef)
    (parent_relation_field : RelationField) (child_model : WriteModel)
    (value : ParsedInputValue) : Except QueryGraphBuilderError QueryGraph :=
  match nestedUpdateDataFilter parent_relation_field child_model value with
  | .error e => .error e
  | .ok (data, filter) =>
    let (g1, find_child_records_node) :=
      insert_find_children_by_parent_node graph parent parent_relation_field filter
    match data.asMap with
    | none => .error (.InternalConversion "update data is not a map")
    | some dataMap =>
      let (g2, update_node) := update_record_node g1 ctx filter child_model dataMap
      let child_model_identifier := parent_relation_field.relatedModel.primaryIdentifier
      let g3 := g2.create_edge find_child_records_node update_node child_model_identifier
        (.nestedUpdateClosure child_model.name parent_relation_field.relationName)
      .ok (insert_emulated_on_update g3 ctx child_model find_child_records_node update_node)

/-- Embedding of `nested_update`: processes every coerced input item. -/
def nested_update (graph : QueryGraph) (ctx : ConnectorContext) (parent : NodeRef)
    (parent_relation_field : RelationField) (value : ParsedInputValue)
    (child_model : WriteModel) : Except QueryGraphBuilderError QueryGraph :=
  (coerce_vec value).foldlM
    (fun g v => nested_update_item g ctx parent parent_relation_field child_model v)
    graph

/-- Embedding of the body of the `nested_update_many` loop for one input
item: mandatory `where` and `data`, find-children node on the extracted
filter, update-many node built with `Connector.Filter::empty()`, and the
projected-data edge carrying the update-many closure. -/
def nested_update_many_item (graph : QueryGraph) (ctx : ConnectorContext) (parent : NodeRef)
    (parent_relation_field : RelationField) (child_model : WriteModel)
    (value : ParsedInputValue) : Except QueryGraphBuilderError QueryGraph := do
  let m ←
    match value.asMap with
    | none => .error (.InternalConversion "nested update-many item is not a map")
    | some m => .ok m
  let (whereVal, m1) ←
    match mapRemove m "where" with
    | none => .error (.InternalConversion "missing where argument")
    | some r => .ok r
  let (dataVal, _) ←
    match mapRemove m1 "data" with
    | none => .error (.InternalConversion "missing data argument")
    | some r => .ok r
  let dataMap ←
    match dataVal.asMap with
    | none => .error (.InternalConversion "update data is not a map")
    | some dm => .ok dm
  let whereMap ←
    match whereVal.asMap with
    | none => .error (.InternalConversion "where argument is not a map")
    | some wm => .ok wm
  let child_model_identifier := parent_relation_field.relatedModel.primaryIdentifier
  let filter := Extractors.extract_filter whereMap child_model
  let (g1, find_child_records_node) :=
    insert_find_children_by_parent_node graph parent parent_relation_field filter
  let (g2, update_many_node) :=
    update_many_record_node g1 ctx Connector.Filter.empty child_model dataMap
  pure (g2.create_edge find_child_records_node update_many_node child_model_identifier
    .nestedUpdateManyClosure)

/-- Embedding of `nested_update_many`: processes every coerced input item. -/
def nested_update_many (graph : QueryGraph) (ctx : ConnectorContext) (parent : NodeRef)
    (parent_relation_field : RelationField) (value : ParsedInputValue)
    (child_model : WriteModel) : Except QueryGraphBuilderError QueryGraph :=
  (coerce_vec value).foldlM
    (fun g v => nested_update_many_item g ctx parent parent_relation_field child_model v)
    graph

/-- Flattened filter of one operation, as `from_operations` computes it:
the `extract_filter` flattening of its filter object against the model
(empty when the operation does not parse; only used under hypotheses that
rule that out). -/
def opFlatFilter (model : Model) (op : Operation) : List (String × PrismaValue) :=
  ((op.where_object).bind (fun w => extract_filter w model)).getD []

/-- Concatenation of the flattened filters of a whole batch, in batch
order. -/
def batchFlatFilters (model : Model) (ops : List Operation) : List (String × PrismaValue) :=
  (ops.map (opFlatFilter model)).flatten

/-- First-appearance deduplication of a name list, skipping names already
seen: the order-preserving union of fields. -/
def dedupKeepFirst (seen : List String) : List String → List String
  | [] => []
  | x :: xs =>
    if x ∈ seen then dedupKeepFirst seen xs
    else x :: dedupKeepFirst (seen ++ [x]) xs

/-- The selection set accumulated by `from_operations` over a batch: every
flattened (field, value) pair pushed in batch order. -/
def compactSet (model : Model) (ops : List Operation) : SelectionSet :=
  (batchFlatFilters model ops).foldl (fun a fv => SelectionSet.push a fv.1 fv.2) []

/-- The compaction-unsafe filter condition as the (amended) claim states
it, written independently of `invalid_compact_filter`: the operation is not
a find-unique, or some filter entry on a scalar model field (not itself a
recognized compound unique key) is an object filter containing no equality
test, or some filter key resolves to neither a plain scalar field nor a
recognized compound unique key. -/
def compactionUnsafeFilter (schema : QuerySchema) (op : Operation) : Prop :=
  op.is_find_unique schema = false ∨
  (∃ w model, op.where_object = some w ∧ schema.find_query_model op.name = some model ∧
    ∃ kv ∈ w,
      (model.find_from_scalar kv.1 = true ∧ resolve_compound_field kv.1 model = none ∧
        ∃ obj, kv.2 = PrismaValue.object obj ∧ ∀ e ∈ obj, e.1 ≠ "equals") ∨
      (model.find_from_scalar kv.1 = false ∧ resolve_compound_field kv.1 model = none))

/-! Concrete fixtures used by witnesses and counterexamples. -/

/-- Example model: scalar fields and one compound unique key. -/
def userModel : Model :=
  { scalarFields := ["id", "email", "name"],
    compoundUniques := [("firstName_lastName", ["firstName", "lastName"])] }

/-- Example schema with one find-unique query field. -/
def exSchema : QuerySchema :=
  { findUniqueFields := [("findUniqueUser", userModel)] }

/-- Example find-unique operation with a plain equals filter. -/
def exOp (v : Int) : Operation :=
  .read (.sel "findUniqueUser" none
    [("where", .object [("id", .object [("equals", .int v)])])]
    [.sel "id" none [] [], .sel "name" none [] []])

/-- Example find-unique operation whose filter uses a non-equals
comparison only. -/
def exOpGt : Operation :=
  .read (.sel "findUniqueUser" none
    [("where", .object [("id", .object [("gt", .int 5)])])]
    [.sel "id" none [] [], .sel "name" none [] []])

/-- Filter leaf mixing an equality with a non-equals comparison. -/
def mixedLeaf : List (String × PrismaValue) :=
  [("equals", PrismaValue.int 1), ("gt", PrismaValue.int 5)]

/-- Example find-unique operation whose filter leaf mixes an equality with
a non-equals comparison. -/
def exOpMixed : Operation :=
  .read (.sel "findUniqueUser" none
    [("where", .object [("id", .object mixedLeaf)])]
    [.sel "id" none [] []])

/-- Example find-unique operation with a compound unique filter. -/
def exOpCompound : Operation :=
  .read (.sel "findUniqueUser" none
    [("where", .object [("firstName_lastName",
        .object [("firstName", .string "Ada"), ("lastName", .string "L")])])]
    [.sel "id" none [] [], .sel "name" none [] []])

/-- First operation of the nested-argument eligibility counterexample: its
nested selection `posts` carries the argument `take = 1`. -/
def c7op1 : Operation :=
  .read (.sel "findUniqueUser" none
    [("where", .object [("id", .object [("equals", .int 1)])])]
    [.sel "posts" none [("take", .int 1)] []])

/-- Second operation of the nested-argument eligibility counterexample:
same nested-selection name set, but `take = 2`. -/
def c7op2 : Operation :=
  .read (.sel "findUniqueUser" none
    [("where", .object [("id", .object [("equals", .int 2)])])]
    [.sel "posts" none [("take", .int 2)] []])

/-- Child model fixture for the nested-update examples. -/
def postModel : WriteModel := { name := "Post", primaryIdentifier := ["id"] }

/-- Relation fixture for the nested-update examples (a to-many relation). -/
def postRelation : RelationField :=
  { is_list := true, relationName := "PostToUser", relatedModel := postModel }

/-- Nested-update input item fixture: a where filter on `id` and a data
payload. -/
def c6value : ParsedInputValue :=
  .map [("where", .map [("id", .single (.int 1))]),
        ("data", .map [("title", .single (.string "t"))])]

/-- The compacted document `from_operations` produces for a well-formed
batch `first :: rest` over `model` (used to state the evaluation theorems;
see `from_operations_eval`). -/
def compactedOf (model : Model) (first : Operation) (rest : List Operation) :
    CompactedDocument :=
  { arguments := (first :: rest).map (opFlatFilter model)
    nested_selection := first.nested_selections.map Selection.name
    operation := .read (.sel (replaceFirst first.sel.name "findUnique" "findMany")
        first.sel.aliasName
        [("where", inValue (compactSet model (first :: rest)))]
        ((SelectionSet.keys (compactSet model (first :: rest))).foldl
          (fun ns key => if ns.any (fun t => t.name == key) then ns
             else ns ++ [Selection.sel key none [] []])
          first.sel.nested_selections))
    keys := argumentKeys (opFlatFilter model first)
    name := replaceFirst first.sel.name "findUnique" "" }

/-! Theorems. -/

/-- Helper: the emulation subtree insertion only appends emulation nodes
and leaves the edges untouched. -/
theorem insert_emulated_on_update_eq (ctx : ConnectorContext) (cm : WriteModel)
    (f u : NodeRef) : ∀ g : QueryGraph,
    insert_emulated_on_update g ctx cm f u =
      { nodes := g.nodes ++ ctx.emulatedRelations.map Node.emulation, edges := g.edges } := by
  unfold insert_emulated_on_update
  induction ctx.emulatedRelations with
  | nil => intro g; simp
  | cons r rs ih =>
    intro g
    simpa [QueryGraph.create_node, List.append_assoc] using ih { g with nodes := g.nodes ++ [Node.emulation r] }

/-- C3: for a nested update (single record), when the find-children step
yields zero rows, the edge transformation closure fails with a
`RecordNotFound` error (the user-facing error class, not an internal
conversion defect) whose message names the child model and the relation. -/
theorem nested_update_zero_matches_record_not_found
    (childModelName relationName : String) (node : Node) :
    DependencyTransformation.apply
        (.nestedUpdateClosure childModelName relationName) node [] =
      .error (.RecordNotFound
        ("No \x27" ++ childModelName ++
         "\x27 record was found for a nested update on relation \x27" ++
         relationName ++ "\x27.")) := rfl

/-- C4: for a nested update (single record), when the find-children step
yields one or more rows, the closure succeeds and installs exactly one
identifier — the last one — as the update node's selector list. -/
theorem nested_update_installs_last_match
    (childModelName relationName : String) (ur : UpdateRecordQuery)
    (ids : List SelectionResult) (h : ids ≠ []) :
    DependencyTransformation.apply
        (.nestedUpdateClosure childModelName relationName)
        (.query (.write (.updateRecord ur))) ids =
      .ok (.query (.write (.updateRecord (ur.set_selectors [ids.getLast h])))) := by
  simp [DependencyTransformation.apply, List.getLast?_eq_getLast_of_ne_nil h]

/-- Witness for C4: two matching rows are not an error; the second (last)
row becomes the unique selector. -/
theorem nested_update_installs_last_match_witness :
    ([[("id", PrismaValue.int 1)], [("id", PrismaValue.int 2)]] : List SelectionResult) ≠ [] ∧
    DependencyTransformation.apply
        (.nestedUpdateClosure "Post" "PostToUser")
        (.query (.write (.updateRecord
          { model := postModel, data := [], record_filter := Connector.Filter.empty,
            selectors := [] })))
        [[("id", PrismaValue.int 1)], [("id", PrismaValue.int 2)]] =
      .ok (.query (.write (.updateRecord
        { model := postModel, data := [], record_filter := Connector.Filter.empty,
          selectors := [[("id", PrismaValue.int 2)]] }))) :=
  ⟨by simp,
   nested_update_installs_last_match "Post" "PostToUser"
     { model := postModel, data := [], record_filter := Connector.Filter.empty,
       selectors := [] }
     [[("id", PrismaValue.int 1)], [("id", PrismaValue.int 2)]] (by simp)⟩

/-- C5: for a nested update-many, the closure installs all matched
identifiers (not just the last) as the update-many node's record filter and
never fails; in particular an empty identifier list yields a successful
node with an empty selector set. -/
theorem nested_update_many_installs_all_matches
    (ur : UpdateManyRecordsQuery) (ids : List SelectionResult) :
    DependencyTransformation.apply .nestedUpdateManyClosure
        (.query (.write (.updateManyRecords ur))) ids =
      .ok (.query (.write (.updateManyRecords
        { ur with record_filter := RecordFilter.fromSelectors ids }))) := rfl

/-- Counterexample for C6: a to-many nested update with the where filter
`{ id: 1 }` builds its update node with the extracted where filter as the
record filter — not with an empty target filter as the claim states. -/
theorem nested_update_node_filter_not_empty :
    nested_update { nodes := [], edges := [] } { emulatedRelations := [] } 0
        postRelation c6value postModel =
      .ok ⟨[.query (.read (.relatedRecords 0 "PostToUser"
                (.test [("id", .single (.int 1))]))),
             .query (.write (.updateRecord
                ⟨postModel, [("title", .single (.string "t"))],
                 .test [("id", .single (.int 1))], []⟩))],
            [⟨0, 1, ["id"], .nestedUpdateClosure "Post" "PostToUser"⟩]⟩ ∧
    Connector.Filter.test [("id", ParsedInputValue.single (PrismaValue.int 1))] ≠
      Connector.Filter.empty :=
  ⟨rfl, fun h => Connector.Filter.noConfusion h⟩

/-- C6 (amended): for every nested-update item, the update node is built
with the supplied data and with the derived filter as its initial record
filter, its selector list empty (the selector is only installed later by
the nested-update closure carried on the inserted edge); and the derived
filter is the filter extracted from the supplied `where` argument — for a
to-many item the mandatory `where`, for a to-one envelope the optional
`where` — and is empty exactly when no `where` filter was supplied (the
envelope without `where`, and the bare-payload shorthand), the extractors
never producing an empty filter. -/
theorem nested_update_node_built_with_where_filter :
    (∀ (g : QueryGraph) (ctx : ConnectorContext) (parent : NodeRef)
        (prf : RelationField) (cm : WriteModel) (value data : ParsedInputValue)
        (filter : Connector.Filter) (dataMap : List (String × ParsedInputValue)),
      nestedUpdateDataFilter prf cm value = .ok (data, filter) →
      data.asMap = some dataMap →
      nested_update_item g ctx parent prf cm value =
        .ok ⟨g.nodes ++
              [.query (.read (.relatedRecords parent prf.relationName filter)),
               .query (.write (.updateRecord ⟨cm, dataMap, filter, []⟩))] ++
              ctx.emulatedRelations.map Node.emulation,
            g.edges ++
              [⟨g.nodes.length, g.nodes.length + 1, prf.relatedModel.primaryIdentifier,
                .nestedUpdateClosure cm.name prf.relationName⟩]⟩) ∧
    (∀ (rn : String) (rm cm : WriteModel) (m m1 m2 : List (String × ParsedInputValue))
        (whereMap : List (String × ParsedInputValue)) (dataVal : ParsedInputValue),
      mapRemove m "where" = some (.map whereMap, m1) →
      mapRemove m1 "data" = some (dataVal, m2) →
      nestedUpdateDataFilter { is_list := true, relationName := rn, relatedModel := rm }
          cm (.map m) =
        .ok (dataVal, Extractors.extract_unique_filter whereMap cm)) ∧
    (∀ (rn : String) (rm cm : WriteModel) (m m1 m2 : List (String × ParsedInputValue))
        (whereMap : List (String × ParsedInputValue)) (dataVal : ParsedInputValue),
      isNestedToOneUpdateEnvelope m = true →
      mapRemove m "where" = some (.map whereMap, m1) →
      mapRemove m1 "data" = some (dataVal, m2) →
      nestedUpdateDataFilter { is_list := false, relationName := rn, relatedModel := rm }
          cm (.map m) =
        .ok (dataVal, Extractors.extract_filter whereMap cm)) ∧
    (∀ (rn : String) (rm cm : WriteModel) (m m2 : List (String × ParsedInputValue))
        (dataVal : ParsedInputValue),
      isNestedToOneUpdateEnvelope m = true →
      mapRemove m "where" = none →
      mapRemove m "data" = some (dataVal, m2) →
      nestedUpdateDataFilter { is_list := false, relationName := rn, relatedModel := rm }
          cm (.map m) =
        .ok (dataVal, Connector.Filter.empty)) ∧
    (∀ (rn : String) (rm cm : WriteModel) (m : List (String × ParsedInputValue)),
      isNestedToOneUpdateEnvelope m = false →
      nestedUpdateDataFilter { is_list := false, relationName := rn, relatedModel := rm }
          cm (.map m) =
        .ok (.map m, Connector.Filter.empty)) ∧
    (∀ (whereMap : List (String × ParsedInputValue)) (cm : WriteModel),
      Extractors.extract_unique_filter whereMap cm ≠ Connector.Filter.empty ∧
      Extractors.extract_filter whereMap cm ≠ Connector.Filter.empty) := by
  refine ⟨?_, ?_, ?_, ?_, ?_, ?_⟩
  · intro g ctx parent prf cm value data filter dataMap h1 h2
    simp only [nested_update_item, h1, h2]
    rw [insert_emulated_on_update_eq]
    simp [insert_find_children_by_parent_node, update_record_node,
      QueryGraph.create_node, QueryGraph.create_edge, List.append_assoc]
  · intro rn rm cm m m1 m2 whereMap dataVal hwhere hdata
    simp only [nestedUpdateDataFilter, ParsedInputValue.asMap, hwhere, hdata]
    rfl
  · intro rn rm cm m m1 m2 whereMap dataVal henv hwhere hdata
    simp only [nestedUpdateDataFilter, ParsedInputValue.asMap, henv, hwhere, hdata]
    rfl
  · intro rn rm cm m m2 dataVal henv hwhere hdata
    simp only [nestedUpdateDataFilter, ParsedInputValue.asMap, henv, hwhere, hdata]
    rfl
  · intro rn rm cm m henv
    simp only [nestedUpdateDataFilter, henv]
    rfl
  · intro whereMap cm
    exact ⟨fun h => Connector.Filter.noConfusion h, fun h => Connector.Filter.noConfusion h⟩

/-- Witness for C6 (amended): the concrete to-many item with where
`{ id: 1 }` derives the extracted filter and builds the two-node subgraph
with that filter on the update node. -/
theorem nested_update_node_built_with_where_filter_witness :
    nestedUpdateDataFilter postRelation postModel c6value =
      .ok (.map [("title", .single (.string "t"))],
        Extractors.extract_unique_filter [("id", .single (.int 1))] postModel) ∧
    nested_update_item { nodes := [], edges := [] } { emulatedRelations := [] } 0
        postRelation postModel c6value =
      .ok ⟨[.query (.read (.relatedRecords 0 "PostToUser"
              (Extractors.extract_unique_filter [("id", .single (.int 1))] postModel))),
            .query (.write (.updateRecord ⟨postModel, [("title", .single (.string "t"))],
              Extractors.extract_unique_filter [("id", .single (.int 1))] postModel, []⟩))],
           [⟨0, 1, ["id"], .nestedUpdateClosure "Post" "PostToUser"⟩]⟩ := by
  have hd := nested_update_node_built_with_where_filter.2.1 "PostToUser" postModel postModel
    [("where", .map [("id", .single (.int 1))]), ("data", .map [("title", .single (.string "t"))])]
    [("data", .map [("title", .single (.string "t"))])] []
    [("id", .single (.int 1))] (.map [("title", .single (.string "t"))]) rfl rfl
  refine ⟨hd, ?_⟩
  exact nested_update_node_built_with_where_filter.1 { nodes := [], edges := [] } { emulatedRelations := [] } 0
    postRelation postModel c6value (.map [("title", .single (.string "t"))])
    (Extractors.extract_unique_filter [("id", .single (.int 1))] postModel)
    [("title", .single (.string "t"))] hd rfl

/-- Helper: shape of a find-unique operation — a read whose single argument
is an object and whose name the schema resolves to a model. -/
theorem is_find_unique_shape (schema : QuerySchema) (op : Operation)
    (h : op.is_find_unique schema = true) :
    ∃ k o model, op = .read op.sel ∧ op.sel.arguments = [(k, PrismaValue.object o)] ∧
      schema.find_query_model op.sel.name = some model := by
  cases op with
  | write s => simp [Operation.is_find_unique] at h
  | read s =>
    unfold Operation.is_find_unique at h
    rw [Bool.and_eq_true] at h
    obtain ⟨h1, h2⟩ := h
    obtain ⟨model, hm⟩ := Option.isSome_iff_exists.mp h1
    rcases harg : s.arguments with _ | ⟨⟨k, v⟩, rest⟩
    · rw [harg] at h2; simp at h2
    · rcases rest with _ | ⟨b, t⟩
      · cases v with
        | object o => exact ⟨k, o, model, rfl, harg, hm⟩
        | null => rw [harg] at h2; simp at h2
        | string a => rw [harg] at h2; simp at h2
        | int n => rw [harg] at h2; simp at h2
        | boolean bv => rw [harg] at h2; simp at h2
        | list l => rw [harg] at h2; simp at h2
      · rw [harg] at h2; simp at h2

/-- Helper: the first argument object of a single-argument selection. -/
theorem firstArgObject_of_single (s : Selection) (k : String)
    (o : List (String × PrismaValue)) (h : s.arguments = [(k, PrismaValue.object o)]) :
    s.firstArgObject = some o := by
  simp [Selection.firstArgObject, h]

/-- Helper: the last argument object of a single-argument selection. -/
theorem lastArgObject_of_single (s : Selection) (k : String)
    (o : List (String × PrismaValue)) (h : s.arguments = [(k, PrismaValue.object o)]) :
    s.lastArgObject = some o := by
  simp [Selection.lastArgObject, h]

/-- Helper: a filter object none of whose entries is compaction-invalid
flattens successfully. -/
theorem extract_filter_isSome (model : Model) :
    ∀ w : List (String × PrismaValue),
    (∀ kv ∈ w, invalidFilterEntry model kv = false) →
    ∃ fl, extract_filter w model = some fl := by
  intro w
  induction w with
  | nil => intro _; exact ⟨[], rfl⟩
  | cons kv rest ih =>
    intro h
    have hkv := h kv (by simp)
    obtain ⟨fl, hfl⟩ := ih (fun x hx => h x (by simp [hx]))
    rcases kv with ⟨key, v⟩
    cases v with
    | object obj =>
      by_cases hc : (resolve_compound_field key model).isSome
      · exact ⟨obj ++ fl, by simp [extract_filter, hc, hfl]⟩
      · rw [invalidFilterEntry] at hkv
        simp only [hc] at hkv
        rw [if_neg (by simp [hc])] at hkv
        by_cases hs : model.find_from_scalar key
        · rw [if_pos hs, Bool.not_eq_false'] at hkv
          have : ∃ e ∈ obj, (fun e => e.1 == "equals") e = true := by
            simpa [List.any_eq_true] using hkv
          obtain ⟨e, he, hee⟩ := this
          have hfind : (obj.find? (fun e => e.1 == "equals")).isSome := by
            rw [List.find?_isSome]
            exact ⟨e, he, hee⟩
          obtain ⟨e2, he2⟩ := Option.isSome_iff_exists.mp hfind
          exact ⟨[(key, e2.2)] ++ fl, by simp [extract_filter, hc, he2, hfl]⟩
        · rw [if_neg hs] at hkv; simp at hkv
    | null => exact ⟨[(key, .null)] ++ fl, by simp [extract_filter, hfl]⟩
    | string a => exact ⟨[(key, .string a)] ++ fl, by simp [extract_filter, hfl]⟩
    | int n => exact ⟨[(key, .int n)] ++ fl, by simp [extract_filter, hfl]⟩
    | boolean bv => exact ⟨[(key, .boolean bv)] ++ fl, by simp [extract_filter, hfl]⟩
    | list l => exact ⟨[(key, .list l)] ++ fl, by simp [extract_filter, hfl]⟩

/-- Helper: a pointwise-successful option map is the plain map. -/
theorem mapOption_eq_map (f : α → Option β) (g : α → β) :
    ∀ l : List α, (∀ x ∈ l, f x = some (g x)) → mapOption f l = some (l.map g) := by
  intro l
  induction l with
  | nil => intro _; rfl
  | cons x xs ih =>
    intro h
    simp [mapOption, h x (by simp), ih (fun y hy => h y (by simp [hy]))]


/-- Helper: pushing into a selection set either leaves the key list alone
(existing field) or appends the new field at the end. -/
theorem push_keys (f : String) (v : PrismaValue) :
    ∀ s : SelectionSet, SelectionSet.keys (SelectionSet.push s f v) =
      if f ∈ SelectionSet.keys s then SelectionSet.keys s
      else SelectionSet.keys s ++ [f] := by
  intro s
  induction s with
  | nil => simp [SelectionSet.push, SelectionSet.keys]
  | cons p rest ih =>
    rcases p with ⟨g, vs⟩
    by_cases hg : g = f
    · subst hg
      have hp : SelectionSet.push ((g, vs) :: rest) g v = (g, vs ++ [v]) :: rest := by
        simp [SelectionSet.push]
      rw [hp]
      rw [if_pos (show g ∈ SelectionSet.keys ((g, vs) :: rest) from List.mem_cons_self g _)]
      rfl
    · have hp : SelectionSet.push ((g, vs) :: rest) f v =
          (g, vs) :: SelectionSet.push rest f v := by
        simp [SelectionSet.push, hg]
      rw [hp]
      show g :: SelectionSet.keys (SelectionSet.push rest f v) = _
      rw [ih]
      by_cases hc : f ∈ SelectionSet.keys rest
      · rw [if_pos hc,
          if_pos (show f ∈ SelectionSet.keys ((g, vs) :: rest) from
            List.mem_cons_of_mem g hc)]
        rfl
      · rw [if_neg hc,
          if_neg (show ¬ f ∈ SelectionSet.keys ((g, vs) :: rest) from fun h =>
            (List.mem_cons.mp h).elim (fun he => hg he.symm) hc)]
        rfl

/-- Helper: pushing into a selection set appends the value to the membership
list of its field and leaves other fields untouched. -/
theorem push_valuesOf (f : String) (v : PrismaValue) (x : String) :
    ∀ s : SelectionSet, SelectionSet.valuesOf (SelectionSet.push s f v) x =
      if f = x then SelectionSet.valuesOf s x ++ [v] else SelectionSet.valuesOf s x := by
  intro s
  induction s with
  | nil =>
    by_cases hfx : f = x
    · subst hfx; simp [SelectionSet.push, SelectionSet.valuesOf]
    · simp [SelectionSet.push, SelectionSet.valuesOf, hfx]
  | cons p rest ih =>
    rcases p with ⟨g, vs⟩
    by_cases hg : g = f
    · subst hg
      have hp : SelectionSet.push ((g, vs) :: rest) g v = (g, vs ++ [v]) :: rest := by
        simp [SelectionSet.push]
      rw [hp]
      by_cases hgx : g = x
      · subst hgx
        simp [SelectionSet.valuesOf]
      · simp [SelectionSet.valuesOf, hgx]
    · have hp : SelectionSet.push ((g, vs) :: rest) f v =
          (g, vs) :: SelectionSet.push rest f v := by
        simp [SelectionSet.push, hg]
      rw [hp]
      by_cases hgx : g = x
      · subst hgx
        have hfx : ¬ f = g := fun h => hg h.symm
        simp [SelectionSet.valuesOf, hfx]
      · simp [SelectionSet.valuesOf, hgx, ih]

/-- Helper: the keys of folding pushes over a pair list are the accumulated
keys followed by the first-appearance union of the pushed fields. -/
theorem foldl_push_keys :
    ∀ (l : List (String × PrismaValue)) (acc : SelectionSet),
      SelectionSet.keys (l.foldl (fun a fv => SelectionSet.push a fv.1 fv.2) acc) =
        SelectionSet.keys acc ++ dedupKeepFirst (SelectionSet.keys acc) (l.map Prod.fst) := by
  intro l
  induction l with
  | nil => intro acc; simp [dedupKeepFirst]
  | cons fv rest ih =>
    intro acc
    simp only [List.foldl_cons, List.map_cons, dedupKeepFirst]
    by_cases hc : fv.1 ∈ SelectionSet.keys acc
    · rw [if_pos hc, ih, push_keys, if_pos hc]
    · rw [if_neg hc, ih, push_keys, if_neg hc]
      simp [List.append_assoc]

/-- Helper: the membership list of one field after folding pushes is the
accumulated list followed by all pushed values of that field, in order. -/
theorem foldl_push_valuesOf :
    ∀ (l : List (String × PrismaValue)) (acc : SelectionSet) (x : String),
      SelectionSet.valuesOf (l.foldl (fun a fv => SelectionSet.push a fv.1 fv.2) acc) x =
        SelectionSet.valuesOf acc x ++
          (l.filter (fun fv => fv.1 == x)).map Prod.snd := by
  intro l
  induction l with
  | nil => intro acc x; simp
  | cons fv rest ih =>
    intro acc x
    simp only [List.foldl_cons]
    rw [ih, push_valuesOf]
    by_cases hfx : fv.1 = x
    · rw [if_pos hfx]
      simp [List.filter_cons, hfx, List.append_assoc]
    · rw [if_neg hfx]
      simp [List.filter_cons, show (fv.1 == x) = false by simpa using hfx]

/-- Helper: propositional characterization of batch-compaction
eligibility for a non-empty batch. -/
theorem can_compact_iff (schema : QuerySchema) (first : Operation) (rest : List Operation)
    (txn : Option BatchDocumentTransaction) :
    BatchDocument.can_compact schema (.Multi (first :: rest) txn) = true ↔
      (first.is_find_unique schema = true ∧
       (∀ op ∈ first :: rest, BatchDocument.invalid_compact_filter schema op = false) ∧
       (∀ op ∈ rest, op.is_find_unique schema = true ∧ first.name = op.name ∧
          first.nested_selections.length = op.nested_selections.length ∧
          ∀ s ∈ first.nested_selections, ∃ t ∈ op.nested_selections, t.specEq s = true)) := by
  constructor
  · intro h
    have hf : first.is_find_unique schema = true := by
      by_contra hf
      rw [Bool.not_eq_true] at hf
      simp [BatchDocument.can_compact, hf] at h
    have hi : (first :: rest).any
        (fun op => BatchDocument.invalid_compact_filter schema op) = false := by
      by_contra hi
      rw [Bool.not_eq_false] at hi
      simp [BatchDocument.can_compact, hf, hi] at h
    have hall : rest.all (fun op =>
        op.is_find_unique schema &&
        (first.name == op.name) &&
        (first.nested_selections.length == op.nested_selections.length) &&
        first.nested_selections.all
          (fun fop => selectionListContains op.nested_selections fop)) = true := by
      simpa [BatchDocument.can_compact, hf, hi] using h
    refine ⟨hf, ?_, ?_⟩
    · intro op hop
      have := List.any_eq_false.mp hi op hop
      simpa using this
    · intro op hop
      have h2 := List.all_eq_true.mp hall op hop
      simp only [Bool.and_eq_true] at h2
      obtain ⟨⟨⟨h3, h4⟩, h5⟩, h6⟩ := h2
      refine ⟨h3, by simpa using h4, by simpa using h5, ?_⟩
      intro s hs
      have h7 := List.all_eq_true.mp h6 s hs
      rw [selectionListContains, List.any_eq_true] at h7
      obtain ⟨t, ht, hts⟩ := h7
      exact ⟨t, ht, hts⟩
  · rintro ⟨hf, hinv, hrest⟩
    have hi : (first :: rest).any
        (fun op => BatchDocument.invalid_compact_filter schema op) = false := by
      rw [List.any_eq_false]
      intro op hop
      simp [hinv op hop]
    have hall : rest.all (fun op =>
        op.is_find_unique schema &&
        (first.name == op.name) &&
        (first.nested_selections.length == op.nested_selections.length) &&
        first.nested_selections.all
          (fun fop => selectionListContains op.nested_selections fop)) = true := by
      rw [List.all_eq_true]
      intro op hop
      obtain ⟨h3, h4, h5, h6⟩ := hrest op hop
      simp only [Bool.and_eq_true]
      refine ⟨⟨⟨h3, by simpa using h4⟩, by simpa using h5⟩, ?_⟩
      rw [List.all_eq_true]
      intro s hs
      rw [selectionListContains, List.any_eq_true]
      obtain ⟨t, ht, hts⟩ := h6 s hs
      exact ⟨t, ht, hts⟩
    simp [BatchDocument.can_compact, hf, hi, hall]

/-- Helper: pointwise equal functions give equal maps. -/
theorem map_congr_mem {α β : Type} (l : List α) (f g : α → β)
    (h : ∀ x ∈ l, f x = g x) : l.map f = l.map g := by
  induction l with
  | nil => rfl
  | cons x xs ih => simp [h x (by simp), ih (fun y hy => h y (by simp [hy]))]

/-- Helper: the selection-set fold of `from_operations` succeeds on
selections whose filter arguments flatten, and produces exactly the fold of
all flattened pairs. -/
theorem foldlOption_selectionSetStep (model : Model) :
    ∀ (sels : List Selection) (acc : SelectionSet),
      (∀ s ∈ sels, ∃ w fl, s.firstArgObject = some w ∧ extract_filter w model = some fl) →
      foldlOption (selectionSetStep model) acc sels =
        some (((sels.map (fun s =>
            ((s.firstArgObject).bind (fun w => extract_filter w model)).getD [])).flatten).foldl
          (fun a fv => SelectionSet.push a fv.1 fv.2) acc) := by
  intro sels
  induction sels with
  | nil => intro acc _; rfl
  | cons s ss ih =>
    intro acc h
    obtain ⟨w, fl, hw, hfl⟩ := h s (by simp)
    have hstep : selectionSetStep model acc s =
        some (fl.foldl (fun a fv => SelectionSet.push a fv.1 fv.2) acc) := by
      simp [selectionSetStep, hw, hfl]
    simp only [foldlOption, hstep]
    show foldlOption (selectionSetStep model)
        (fl.foldl (fun a fv => SelectionSet.push a fv.1 fv.2) acc) ss = _
    rw [ih _ (fun y hy => h y (by simp [hy]))]
    simp [hw, hfl, List.foldl_append]

/-- Helper: full evaluation of `from_operations` on a well-formed batch —
every unwrap succeeds and the compacted document is `compactedOf`. -/
theorem from_operations_eval (schema : QuerySchema)
    (first : Operation) (rest : List Operation) (model : Model)
    (hmodel : schema.find_query_model first.name = some model)
    (hfu : ∀ op ∈ first :: rest, op.is_find_unique schema = true)
    (hname : ∀ op ∈ first :: rest, op.name = first.name)
    (hinv : ∀ op ∈ first :: rest, BatchDocument.invalid_compact_filter schema op = false) :
    CompactedDocument.from_operations (first :: rest) schema =
      some (compactedOf model first rest) := by
  have hfacts : ∀ op ∈ first :: rest, ∃ o fl,
      op = .read op.sel ∧
      op.sel.firstArgObject = some o ∧
      op.sel.lastArgObject = some o ∧
      op.where_object = some o ∧
      extract_filter o model = some fl := by
    intro op hop
    obtain ⟨k, o, m0, hread, hargs, _⟩ := is_find_unique_shape schema op (hfu op hop)
    have hfirst := firstArgObject_of_single op.sel k o hargs
    have hlast := lastArgObject_of_single op.sel k o hargs
    have hwo : op.where_object = some o := by
      rw [hread]; exact hfirst
    have hlookup : schema.find_query_model op.name = some model := by
      rw [hname op hop]; exact hmodel
    have hany : o.any (invalidFilterEntry model) = false := by
      have := hinv op hop
      rw [BatchDocument.invalid_compact_filter] at this
      rw [if_neg (by simp [hfu op hop])] at this
      rw [hwo, hlookup] at this
      exact this
    obtain ⟨fl, hfl⟩ := extract_filter_isSome model o
      (fun kv hkv => by
        have := List.any_eq_false.mp hany kv hkv
        simpa using this)
    exact ⟨o, fl, hread, hfirst, hlast, hwo, hfl⟩
  have hreads : mapOption Operation.into_read (first :: rest) =
      some ((first :: rest).map Operation.sel) := by
    apply mapOption_eq_map
    intro op hop
    obtain ⟨o, fl, hread, _, _, _, _⟩ := hfacts op hop
    rw [hread]; rfl
  have hfold : foldlOption (selectionSetStep model) []
      ((first :: rest).map Operation.sel) =
      some (compactSet model (first :: rest)) := by
    rw [foldlOption_selectionSetStep model _ []
      (by
        intro s hs
        obtain ⟨op, hop, hsel⟩ := List.mem_map.mp hs
        obtain ⟨o, fl, _, hfirst, _, _, hfl⟩ := hfacts op hop
        exact ⟨o, fl, by rw [← hsel]; exact hfirst, hfl⟩)]
    congr 1
    rw [compactSet, batchFlatFilters]
    congr 1
    rw [List.map_map]
    congr 1
    apply map_congr_mem
    intro op hop
    obtain ⟨o, fl, hread, hfirst, _, hwo, _⟩ := hfacts op hop
    simp [Function.comp, opFlatFilter, hwo, hfirst]
  have hremap : mapOption (remapStep model) ((first :: rest).map Operation.sel) =
      some ((first :: rest).map (opFlatFilter model)) := by
    rw [show (first :: rest).map (opFlatFilter model) =
        ((first :: rest).map Operation.sel).map
          (fun s => ((s.lastArgObject).bind (fun w => extract_filter w model)).getD []) by
      rw [List.map_map]
      apply map_congr_mem
      intro op hop
      obtain ⟨o, fl, _, hfirst, hlast, hwo, hfl⟩ := hfacts op hop
      simp [Function.comp, opFlatFilter, hwo, hlast, hfirst, hfl]]
    apply mapOption_eq_map
    intro s hs
    obtain ⟨op, hop, hsel⟩ := List.mem_map.mp hs
    obtain ⟨o, fl, _, _, hlast, _, hfl⟩ := hfacts op hop
    rw [remapStep, ← hsel]
    simp [hlast, hfl]
  have hheadsel : ((first :: rest).map Operation.sel).head? = some first.sel := rfl
  have hheadarg : ((first :: rest).map (opFlatFilter model)).head? =
      some (opFlatFilter model first) := rfl
  simp only [CompactedDocument.from_operations, List.head?_cons, hmodel, hreads,
    hheadsel, hfold, hremap, hheadarg]
  rfl

/-- Helper: a compactable batch is non-empty, resolves its first operation
to a model, and consists of same-named find-unique operations with valid
compact filters. -/
theorem can_compact_elim (schema : QuerySchema) (ops : List Operation)
    (txn : Option BatchDocumentTransaction)
    (h : BatchDocument.can_compact schema (.Multi ops txn) = true) :
    ∃ first rest model, ops = first :: rest ∧
      schema.find_query_model first.name = some model ∧
      (∀ op ∈ ops, op.is_find_unique schema = true) ∧
      (∀ op ∈ ops, op.name = first.name) ∧
      (∀ op ∈ ops, BatchDocument.invalid_compact_filter schema op = false) := by
  rcases ops with _ | ⟨first, rest⟩
  · simp [BatchDocument.can_compact] at h
  · obtain ⟨hf, hinv, hrest⟩ := (can_compact_iff schema first rest txn).mp h
    obtain ⟨k, o, model, _, _, hmodel⟩ := is_find_unique_shape schema first hf
    refine ⟨first, rest, model, rfl, hmodel, ?_, ?_, hinv⟩
    · intro op hop
      rcases List.mem_cons.mp hop with he | hm
      · subst he; exact hf
      · exact (hrest op hm).1
    · intro op hop
      rcases List.mem_cons.mp hop with he | hm
      · subst he; rfl
      · exact ((hrest op hm).2.1).symm

/-- C2: for every eligible batch, compaction produces a `Compact` document
whose single bulk read carries one `where` argument, the IN-style
membership filter over the selection set whose key list is exactly the
first-appearance union of the flattened filter fields across all members
and whose per-field membership list collects exactly the values extracted
for that field across the batch (compound keys having been flattened to
their component fields by `extract_filter`). -/
theorem compaction_filter_is_union (schema : QuerySchema) (ops : List Operation)
    (txn : Option BatchDocumentTransaction)
    (h : BatchDocument.can_compact schema (.Multi ops txn) = true) :
    ∃ first rest model,
      ops = first :: rest ∧
      schema.find_query_model first.name = some model ∧
      BatchDocument.compact schema (.Multi ops txn) =
        .Compact (compactedOf model first rest) ∧
      ∃ S : SelectionSet,
        (compactedOf model first rest).operation =
          .read (.sel (replaceFirst first.name "findUnique" "findMany")
            first.sel.aliasName [("where", inValue S)]
            ((SelectionSet.keys S).foldl
              (fun ns key => if ns.any (fun t => t.name == key) then ns
                 else ns ++ [Selection.sel key none [] []])
              first.nested_selections)) ∧
        SelectionSet.keys S =
          dedupKeepFirst [] ((batchFlatFilters model ops).map Prod.fst) ∧
        ∀ f : String, SelectionSet.valuesOf S f =
          ((batchFlatFilters model ops).filter (fun fv => fv.1 == f)).map Prod.snd := by
  obtain ⟨first, rest, model, hops, hmodel, hfu, hname, hinv⟩ :=
    can_compact_elim schema ops txn h
  subst hops
  have heval := from_operations_eval schema first rest model hmodel hfu hname hinv
  refine ⟨first, rest, model, rfl, hmodel, ?_, compactSet model (first :: rest),
    rfl, ?_, ?_⟩
  · simp [BatchDocument.compact, h, heval]
  · rw [compactSet, foldl_push_keys]
    rfl
  · intro f
    rw [compactSet, foldl_push_valuesOf]
    rfl

/-- C9: a batch of exactly one find-unique operation with a
compaction-safe filter is eligible (the all-others-match condition holds
vacuously), and the compacted bulk filter is the membership filter built
from exactly that operation's single flattened key. -/
theorem single_batch_compaction (schema : QuerySchema) (op : Operation)
    (txn : Option BatchDocumentTransaction)
    (h1 : op.is_find_unique schema = true)
    (h2 : BatchDocument.invalid_compact_filter schema op = false) :
    BatchDocument.can_compact schema (.Multi [op] txn) = true ∧
    ∃ model fl,
      schema.find_query_model op.name = some model ∧
      (op.where_object.bind (fun w => extract_filter w model)) = some fl ∧
      BatchDocument.compact schema (.Multi [op] txn) =
        .Compact (compactedOf model op []) ∧
      (compactedOf model op []).arguments = [fl] ∧
      SelectionSet.keys (compactSet model [op]) = dedupKeepFirst [] (fl.map Prod.fst) ∧
      ∀ f : String, SelectionSet.valuesOf (compactSet model [op]) f =
        (fl.filter (fun fv => fv.1 == f)).map Prod.snd := by
  have hcc : BatchDocument.can_compact schema (.Multi [op] txn) = true := by
    refine (can_compact_iff schema op [] txn).mpr ⟨h1, ?_, ?_⟩
    · intro x hx
      rcases List.mem_cons.mp hx with he | hm
      · subst he; exact h2
      · simp at hm
    · intro x hx; simp at hx
  obtain ⟨k, o, model, hread, hargs, hmodel⟩ := is_find_unique_shape schema op h1
  have hwo : op.where_object = some o := by
    rw [hread]; exact firstArgObject_of_single op.sel k o hargs
  have hany : o.any (invalidFilterEntry model) = false := by
    have := h2
    rw [BatchDocument.invalid_compact_filter] at this
    rw [if_neg (by simp [h1])] at this
    rw [hwo] at this
    rw [show schema.find_query_model op.name = some model from hmodel] at this
    exact this
  obtain ⟨fl, hfl⟩ := extract_filter_isSome model o
    (fun kv hkv => by
      have := List.any_eq_false.mp hany kv hkv
      simpa using this)
  have hbind : (op.where_object.bind (fun w => extract_filter w model)) = some fl := by
    rw [hwo]
    simpa using hfl
  have hflat : opFlatFilter model op = fl := by
    rw [opFlatFilter, hbind]
    rfl
  have heval := from_operations_eval schema op [] model hmodel
    (by intro x hx; rcases List.mem_cons.mp hx with he | hm
        · subst he; exact h1
        · simp at hm)
    (by intro x hx; rcases List.mem_cons.mp hx with he | hm
        · subst he; rfl
        · simp at hm)
    (by intro x hx; rcases List.mem_cons.mp hx with he | hm
        · subst he; exact h2
        · simp at hm)
  have hbff : batchFlatFilters model [op] = fl := by
    simp [batchFlatFilters, hflat]
  refine ⟨hcc, model, fl, hmodel, hbind, ?_, ?_, ?_, ?_⟩
  · simp [BatchDocument.compact, hcc, heval]
  · simp [compactedOf, hflat]
  · rw [compactSet, hbff, foldl_push_keys]
    rfl
  · intro f
    rw [compactSet, hbff, foldl_push_valuesOf]
    rfl

/-- C8: `compact` produces a `Compact` document when compaction is safe
and returns the input unchanged otherwise (in particular for an empty
batch, a batch whose first operation is not find-unique, and an
already-`Compact` input, all of which make `can_compact` false); hence
`compact` is idempotent. -/
theorem compact_iff_safe_and_idempotent (schema : QuerySchema) (d : BatchDocument) :
    (BatchDocument.can_compact schema d = true →
      ∃ c, BatchDocument.compact schema d = .Compact c) ∧
    (BatchDocument.can_compact schema d = false →
      BatchDocument.compact schema d = d) ∧
    BatchDocument.compact schema (BatchDocument.compact schema d) =
      BatchDocument.compact schema d := by
  cases d with
  | Compact c =>
    refine ⟨?_, fun _ => rfl, rfl⟩
    intro h
    exact ⟨c, rfl⟩
  | Multi ops txn =>
    have hpos : BatchDocument.can_compact schema (.Multi ops txn) = true →
        ∃ c, BatchDocument.compact schema (.Multi ops txn) = .Compact c := by
      intro h
      obtain ⟨first, rest, model, hops, hmodel, hfu, hname, hinv⟩ :=
        can_compact_elim schema ops txn h
      subst hops
      have heval := from_operations_eval schema first rest model hmodel hfu hname hinv
      exact ⟨compactedOf model first rest, by simp [BatchDocument.compact, h, heval]⟩
    have hneg : BatchDocument.can_compact schema (.Multi ops txn) = false →
        BatchDocument.compact schema (.Multi ops txn) = .Multi ops txn := by
      intro h
      simp [BatchDocument.compact, h]
    refine ⟨hpos, hneg, ?_⟩
    by_cases hc : BatchDocument.can_compact schema (.Multi ops txn) = true
    · obtain ⟨c, hcomp⟩ := hpos hc
      rw [hcomp]
      rfl
    · have hc2 : BatchDocument.can_compact schema (.Multi ops txn) = false := by
        simpa using hc
      have h2 := hneg hc2
      rw [h2, h2]

/-- C10: when `compact` rewrites a `Multi` batch, the transaction
descriptor is discarded: the result does not depend on it, and the
resulting `Compact` document (whose struct carries no transaction field)
passes no isolation level on. -/
theorem compacted_discards_transaction (schema : QuerySchema) (ops : List Operation)
    (t1 t2 : Option BatchDocumentTransaction)
    (h : BatchDocument.can_compact schema (.Multi ops t1) = true) :
    BatchDocument.compact schema (.Multi ops t1) =
      BatchDocument.compact schema (.Multi ops t2) ∧
    batchIsolationLevel (BatchDocument.compact schema (.Multi ops t1)) = none := by
  have h2 : BatchDocument.can_compact schema (.Multi ops t2) = true := h
  obtain ⟨first, rest, model, hops, hmodel, hfu, hname, hinv⟩ :=
    can_compact_elim schema ops t1 h
  subst hops
  have heval := from_operations_eval schema first rest model hmodel hfu hname hinv
  have hcomp1 : BatchDocument.compact schema (.Multi (first :: rest) t1) =
      .Compact (compactedOf model first rest) := by
    simp [BatchDocument.compact, h, heval]
  have hcomp2 : BatchDocument.compact schema (.Multi (first :: rest) t2) =
      .Compact (compactedOf model first rest) := by
    simp [BatchDocument.compact, h2, heval]
  rw [hcomp1, hcomp2]
  exact ⟨rfl, rfl⟩

/-- Helper: the claim-side unsafe-filter condition implies the
source-side `invalid_compact_filter`. -/
theorem unsafe_implies_invalid (schema : QuerySchema) (op : Operation)
    (h : compactionUnsafeFilter schema op) :
    BatchDocument.invalid_compact_filter schema op = true := by
  by_cases hfu : op.is_find_unique schema = true
  · rcases h with hfu2 | ⟨w, model, hwo, hmodel, kv, hkv, hcase⟩
    · rw [hfu] at hfu2; exact absurd hfu2 (by simp)
    · rw [BatchDocument.invalid_compact_filter, if_neg (by simp [hfu]), hwo, hmodel]
      rw [List.any_eq_true]
      refine ⟨kv, hkv, ?_⟩
      rcases hcase with ⟨hscalar, hcompound, obj, hobj, hneq⟩ | ⟨hscalar, hcompound⟩
      · have hanyeq : obj.any (fun e => e.1 == "equals") = false := by
          rw [List.any_eq_false]
          intro e he
          simp [hneq e he]
        rw [invalidFilterEntry, hobj]
        simp [hcompound, hscalar, hanyeq]
      · rcases hv : kv.2 with _ | s | n | b | l | obj
        all_goals rw [invalidFilterEntry, hv]
        all_goals simp [hscalar, hcompound]
  · have hfu2 : op.is_find_unique schema = false := by simpa using hfu
    rw [BatchDocument.invalid_compact_filter, if_pos (by simp [hfu2])]

/-- C1 (amended): if any operation of a `Multi` batch has a
compaction-unsafe filter — it is not a find-unique, or a filter leaf on a
scalar model field (not itself a recognized compound unique key) is an
object filter containing no equality test, or a filter key resolves to
neither a plain scalar field nor a recognized compound unique key — then
`compact` returns the whole batch unchanged as `Multi`. -/
theorem unsafe_filter_rejects_batch (schema : QuerySchema) (ops : List Operation)
    (txn : Option BatchDocumentTransaction)
    (h : ∃ op ∈ ops, compactionUnsafeFilter schema op) :
    BatchDocument.compact schema (.Multi ops txn) = .Multi ops txn := by
  obtain ⟨op, hop, hunsafe⟩ := h
  have hinv := unsafe_implies_invalid schema op hunsafe
  have hcc : BatchDocument.can_compact schema (.Multi ops txn) = false := by
    rcases ops with _ | ⟨first, rest⟩
    · rfl
    · by_cases hf : first.is_find_unique schema = true
      · have hany : (first :: rest).any
            (fun o => BatchDocument.invalid_compact_filter schema o) = true :=
          List.any_eq_true.mpr ⟨op, hop, hinv⟩
        simp [BatchDocument.can_compact, hf, hany]
      · have hf2 : first.is_find_unique schema = false := by simpa using hf
        simp [BatchDocument.can_compact, hf2]
  simp [BatchDocument.compact, hcc]

/-- Counterexample for C1: a filter leaf that mixes an equality with a
non-equals comparison (`{ id: { equals: 1, gt: 5 } }`) uses a comparison
other than an equality test on a scalar field, yet the batch is compacted
(a `Compact` document is produced), contradicting the claim as stated:
the code only rejects a leaf whose object contains no `equals` key, and
`extract_filter` silently keeps only the equality. -/
theorem mixed_equals_filter_still_compacts :
    exOpMixed.where_object = some [("id", PrismaValue.object mixedLeaf)] ∧
    ("gt", PrismaValue.int 5) ∈ mixedLeaf ∧ ¬ ("gt" = "equals") ∧
    userModel.find_from_scalar "id" = true ∧
    (BatchDocument.compact exSchema (.Multi [exOpMixed] none)).is_compact = true := by
  refine ⟨rfl, by simp [mixedLeaf], by decide, rfl, rfl⟩

/-- Counterexample for C7: two find-unique operations over the same query
field with safe equality filters and identical nested-selection name sets
are nevertheless not eligible for compaction, because their nested
selections carry different arguments (`take = 1` vs `take = 2`) and the
nested-selection containment check compares whole selections (name,
arguments, nested names), not names only. -/
theorem nested_arguments_break_eligibility :
    c7op1.is_find_unique exSchema = true ∧
    c7op2.is_find_unique exSchema = true ∧
    BatchDocument.invalid_compact_filter exSchema c7op1 = false ∧
    BatchDocument.invalid_compact_filter exSchema c7op2 = false ∧
    c7op1.name = c7op2.name ∧
    nameSetEq (c7op1.nested_selections.map Selection.name)
      (c7op2.nested_selections.map Selection.name) = true ∧
    BatchDocument.can_compact exSchema (.Multi [c7op1, c7op2] none) = false :=
  ⟨rfl, rfl, rfl, rfl, rfl, rfl, rfl⟩

/-- C7 (amended): compaction eligibility for a non-empty batch requires
each operation after the first to be find-unique, target the same named
query field, have a nested-selection set of the same size, and contain
every nested selection of the first operation under the structural
comparability of (name, arguments, nested-selection names) — so the order
of nested selections is irrelevant, but their arguments do affect
eligibility — together with all compact filters being valid. -/
theorem compaction_eligibility_characterization (schema : QuerySchema)
    (first : Operation) (rest : List Operation)
    (txn : Option BatchDocumentTransaction) :
    BatchDocument.can_compact schema (.Multi (first :: rest) txn) = true ↔
      (first.is_find_unique schema = true ∧
       (∀ op ∈ first :: rest, BatchDocument.invalid_compact_filter schema op = false) ∧
       (∀ op ∈ rest, op.is_find_unique schema = true ∧ first.name = op.name ∧
          first.nested_selections.length = op.nested_selections.length ∧
          ∀ s ∈ first.nested_selections, ∃ t ∈ op.nested_selections, t.specEq s = true)) :=
  can_compact_iff schema first rest txn

/-- Witness for C1 (amended): in a three-operation batch whose second
member filters with `gt` only, that member is compaction-unsafe and the
whole batch stays `Multi`. -/
theorem unsafe_filter_rejects_batch_witness :
    (∃ op ∈ [exOp 1, exOpGt, exOp 2], compactionUnsafeFilter exSchema op) ∧
    BatchDocument.compact exSchema (.Multi [exOp 1, exOpGt, exOp 2] none) =
      .Multi [exOp 1, exOpGt, exOp 2] none := by
  have hunsafe : compactionUnsafeFilter exSchema exOpGt := by
    right
    refine ⟨[("id", PrismaValue.object [("gt", PrismaValue.int 5)])], userModel, rfl, rfl,
      ("id", PrismaValue.object [("gt", PrismaValue.int 5)]), by simp, ?_⟩
    left
    exact ⟨rfl, rfl, [("gt", PrismaValue.int 5)], rfl, by decide⟩
  exact ⟨⟨exOpGt, by simp, hunsafe⟩,
    unsafe_filter_rejects_batch exSchema [exOp 1, exOpGt, exOp 2] none
      ⟨exOpGt, by simp, hunsafe⟩⟩

/-- Witness for C2: a two-operation batch compacts into a `Compact`
document. -/
theorem compaction_filter_is_union_witness :
    BatchDocument.can_compact exSchema (.Multi [exOp 1, exOp 2] none) = true ∧
    (BatchDocument.compact exSchema (.Multi [exOp 1, exOp 2] none)).is_compact = true := by
  refine ⟨rfl, ?_⟩
  obtain ⟨first, rest, model, hops, hmodel, hcomp, _⟩ :=
    compaction_filter_is_union exSchema [exOp 1, exOp 2] none rfl
  rw [hcomp]
  rfl

/-- Witness for C8: an ineligible batch (second member filters with `gt`)
is returned unchanged. -/
theorem compact_iff_safe_and_idempotent_witness :
    BatchDocument.can_compact exSchema (.Multi [exOp 1, exOpGt] none) = false ∧
    BatchDocument.compact exSchema (.Multi [exOp 1, exOpGt] none) =
      .Multi [exOp 1, exOpGt] none :=
  ⟨rfl, (compact_iff_safe_and_idempotent exSchema (.Multi [exOp 1, exOpGt] none)).2.1 rfl⟩

/-- Witness for C9: a single-operation batch with a compound unique filter
compacts. -/
theorem single_batch_compaction_witness :
    exOpCompound.is_find_unique exSchema = true ∧
    BatchDocument.invalid_compact_filter exSchema exOpCompound = false ∧
    (BatchDocument.compact exSchema (.Multi [exOpCompound] none)).is_compact = true := by
  refine ⟨rfl, rfl, ?_⟩
  obtain ⟨_, model, fl, _, _, hcomp, _⟩ :=
    single_batch_compaction exSchema exOpCompound none rfl rfl
  rw [hcomp]
  rfl

/-- Witness for C10: compacting a batch submitted with a serializable
isolation level yields a document carrying no isolation level. -/
theorem compacted_discards_transaction_witness :
    BatchDocument.can_compact exSchema
      (.Multi [exOp 1] (some { isolation_level := some "Serializable" })) = true ∧
    batchIsolationLevel (BatchDocument.compact exSchema
      (.Multi [exOp 1] (some { isolation_level := some "Serializable" }))) = none :=
  ⟨rfl, (compacted_discards_transaction exSchema [exOp 1]
      (some { isolation_level := some "Serializable" }) none rfl).2⟩
